import Mathlib

/-!
Shallow embedding of `yaml_metadata.py`: a module that turns a YAML
description of nested table definitions into an SQLAlchemy `MetaData`
registry of tables, synthesizing primary keys and foreign keys.

The embedding models the Python values the module manipulates
(`Column`, `Table`, `MetaData`, the YAML-constructed `TableDefinition`)
as Lean structures, and the module's functions (`construct_column`,
`construct_foreign_key`, `construct_table`, `generate_metadata`) as
total Lean functions.  Python's in-place mutation of the metadata and
of the definition tree is made explicit: `construct_table` returns the
updated metadata, the updated definition tree, and the exception raised
(if any); partially performed mutations before an exception are kept,
matching Python semantics.
-/

set_option maxHeartbeats 1000000

namespace YamlMetadata

/-- Names resolvable in `sqlalchemy.types.__dict__` as column type
classes; `construct_column` resolves its textual type name against this
catalog (`types.__dict__[column_type]`).  The list covers every public
column type name the module's SQLAlchemy era (the pre-1.4 API implied
by `Table(..., autoload=True, mustexist=True)` and the `Binary` alias)
exports from `types`: the CamelCase generic types and the uppercase
SQL-standard names such as `VARCHAR`, `DECIMAL` or `TIMESTAMP`.  Two
kinds of `types.__dict__` entries are deliberately abstracted away,
neither being a column type name: version-specific late additions, and
module plumbing (dunder attributes and base classes such as
`TypeEngine`/`TypeDecorator`, whose lookup would succeed but whose
instantiation fails outside the guarded lookup, so they never produce
the formatted unknown-type `KeyError` either). -/
def sqlalchemy_types : List String :=
  ["String", "Text", "Unicode", "UnicodeText", "Integer", "SmallInteger",
   "BigInteger", "Numeric", "Float", "DateTime", "Date", "Time", "Interval",
   "Boolean", "LargeBinary", "Binary", "PickleType", "Enum", "NullType",
   "VARCHAR", "NVARCHAR", "CHAR", "NCHAR", "TEXT", "CLOB", "BLOB",
   "BINARY", "VARBINARY", "DECIMAL", "NUMERIC", "FLOAT", "REAL",
   "INT", "INTEGER", "SMALLINT", "BIGINT", "DATETIME", "DATE", "TIME",
   "TIMESTAMP", "BOOLEAN"]

/-- Python exceptions that the module can raise. -/
inductive PyErr where
  | keyError (msg : String)
  | stopIteration
  | invalidRequest (msg : String)
  | attributeError (msg : String)
deriving DecidableEq

/-- An SQLAlchemy `Column`: its name, the textual name of its resolved
type (`none` for the foreign-key columns created with type `None`),
whether it was created with `primary_key=True`, and the `ForeignKey`
target `(table name, column name)` when one was attached. -/
structure SAColumn where
  name : String
  ctype : Option String
  primary_key : Bool
  foreign_key : Option (String × String)
deriving DecidableEq

/-- An SQLAlchemy `Table`: name and its columns in append order. -/
structure SATable where
  name : String
  columns : List SAColumn
deriving DecidableEq

/-- An SQLAlchemy `MetaData`: the ordered name-to-table registry. -/
structure MetaData where
  tables : List (String × SATable)
deriving DecidableEq

/-- The table names, in registration order (iterating `metadata.tables`
yields the keys). -/
def MetaData.names (md : MetaData) : List String :=
  md.tables.map (fun p => p.1)

/-- Dictionary lookup in `metadata.tables`. -/
def MetaData.lookup (md : MetaData) (n : String) : Option SATable :=
  (md.tables.find? (fun p => p.1 == n)).map (fun p => p.2)

/-- `Table(name, metadata, cols)` on a name not yet present: the new
table is entered into `metadata.tables` under its name.  (On a name
already present SQLAlchemy would raise; `construct_table` only reaches
this after checking absence, so the embedding registers directly.) -/
def MetaData.register (md : MetaData) (t : SATable) : MetaData :=
  ⟨md.tables ++ [(t.name, t)]⟩

/-- `table.append_column(c)` where `table` is the object registered
under key `n`: Python mutates the registered object, so the embedding
rewrites the registry entry for `n` with the extended column list. -/
def MetaData.append_column (md : MetaData) (n : String) (c : SAColumn) : MetaData :=
  ⟨md.tables.map (fun p => if p.1 == n then (p.1, ⟨p.2.name, p.2.columns ++ [c]⟩) else p)⟩

/-- The message of the `KeyError` raised by `construct_column`:
`'Unknown type "%s" in column "%s"' % (column_type, name)`. -/
def unknown_type_msg (column_type name : String) : String :=
  "Unknown type \"" ++ column_type ++ "\" in column \"" ++ name ++ "\""

/-- `construct_column(name, column_type)`: resolve the type name in
`types.__dict__` and return a `Column`; on a miss, raise a `KeyError`
carrying both the type name and the column name.  The returned column
is not marked as a primary key (`Column(name, type())` has
`primary_key=False`). -/
def construct_column (name column_type : String) : Except PyErr SAColumn :=
  if sqlalchemy_types.contains column_type then
    .ok ⟨name, some column_type, false, none⟩
  else
    .error (.keyError (unknown_type_msg column_type name))

/-- Rendering of a `Column` bound to a `Table` by `str` (as used by the
`'%s'` format): SQLAlchemy compiles it to `tablename.columnname`. -/
def column_str (t c : String) : String := t ++ "." ++ c

/-- `construct_foreign_key(one_table, many_name, key_metadata)`:
take the first column of `one_table.primary_key.columns` (the columns
created with `primary_key=True`, in column order; `next(iter(...))`
raises `StopIteration` when there is none), build the column name
`'%s_%s' % (one_table.name, first_primary_key)` — note the second
argument is the `Column` object, rendered `tablename.columnname` —
fetch the existing table `many_name` (`Table(..., autoload=True,
mustexist=True)` returns the registered table, raising if absent), and
append to it a column with a `ForeignKey` to the primary-key column
found in `dict(one_table.columns)`. -/
def construct_foreign_key (one_table : SATable) (many_name : String)
    (key_metadata : MetaData) : Except PyErr MetaData :=
  match (one_table.columns.filter (fun c => c.primary_key)).head? with
  | none => .error .stopIteration
  | some first_primary_key =>
    let column_name := one_table.name ++ "_" ++ column_str one_table.name first_primary_key.name
    match key_metadata.lookup many_name with
    | none => .error (.invalidRequest ("Table '" ++ many_name ++ "' not defined"))
    | some _ =>
      match one_table.columns.find? (fun c => c.name == first_primary_key.name) with
      | none => .error (.keyError first_primary_key.name)
      | some target =>
        .ok (key_metadata.append_column many_name
          ⟨column_name, none, false, some (one_table.name, target.name)⟩)

mutual
/-- A value in a definition's `columns` mapping: either a textual type
name, or a nested `!Table`-tagged `TableDefinition`. -/
inductive ColumnValue where
  | spec (typeName : String)
  | table (td : TableDefinition)

/-- The YAML-constructed `TableDefinition` object: `name`, the optional
`primary_key` attribute (present only when the YAML mapping had that
key), and the ordered `columns` dictionary. -/
inductive TableDefinition where
  | mk (name : String) (primary_key : Option String) (columns : Columns)

/-- The ordered `columns` dictionary of a `TableDefinition`. -/
inductive Columns where
  | nil
  | cons (key : String) (value : ColumnValue) (rest : Columns)
end

def TableDefinition.name : TableDefinition → String
  | .mk n _ _ => n

def TableDefinition.primary_key : TableDefinition → Option String
  | .mk _ p _ => p

def TableDefinition.columns : TableDefinition → Columns
  | .mk _ _ c => c

/-- Dictionary lookup `columns[k]`. -/
def Columns.lookup : Columns → String → Option ColumnValue
  | .nil, _ => none
  | .cons k v rest, n => if k == n then some v else rest.lookup n

/-- Removal of the deleted primary-key entry (`del columns[pk]`,
performed before the column loop) from a not-yet-traversed suffix. -/
def Columns.eraseKey (skip : Option String) : Columns → Columns
  | .nil => .nil
  | .cons k v rest =>
    if skip == some k then rest.eraseKey skip else .cons k v (rest.eraseKey skip)

/-- The keys of the `columns` dictionary, in order. -/
def Columns.keys : Columns → List String
  | .nil => []
  | .cons k _ rest => k :: rest.keys

/-- `construct_column(name, columns[pk])` where the looked-up value may
itself be a nested `TableDefinition`: such an object is not a key of
`types.__dict__`, so the same `KeyError` path fires, with `'%s'` of the
object (its default `repr`; the embedding abstracts the address). -/
def construct_column_value (name : String) : ColumnValue → Except PyErr SAColumn
  | .spec ty => construct_column name ty
  | .table _ => .error (.keyError (unknown_type_msg "<TableDefinition object>" name))

/-- Result of `construct_table`: the metadata after all performed
mutations, the definition tree after all performed mutations, and the
exception propagated out (`none` on normal return). -/
structure BuildResult where
  md : MetaData
  td : TableDefinition
  err : Option PyErr

/-- Result of the column loop of `construct_table`. -/
structure LoopResult where
  md : MetaData
  cols : Columns
  err : Option PyErr

mutual
/-- `construct_table(table_def, table_metadata)`.  Returns immediately
when the name is already registered; otherwise determines the primary
key (resolving and deleting the designated `primary_key` entry, or
synthesizing `Column('id', Integer, primary_key=True)`), registers the
table with that single column, and runs the column loop over the
remaining entries. -/
def construct_table (table_def : TableDefinition) (table_metadata : MetaData) :
    BuildResult :=
  match table_def with
  | .mk name pk cols =>
    if table_metadata.names.contains name then
      ⟨table_metadata, .mk name pk cols, none⟩
    else
      match pk with
      | some pkName =>
        match cols.lookup pkName with
        | none => ⟨table_metadata, .mk name pk cols, some (.keyError pkName)⟩
        | some v =>
          match construct_column_value pkName v with
          | .error e => ⟨table_metadata, .mk name pk cols, some e⟩
          | .ok pkCol =>
            let md1 := table_metadata.register ⟨name, [pkCol]⟩
            let r := build_loop name (some pkName) cols md1
            ⟨r.md, .mk name pk r.cols, r.err⟩
      | none =>
        let md1 := table_metadata.register ⟨name, [⟨"id", some "Integer", true, none⟩]⟩
        let r := build_loop name none cols md1
        ⟨r.md, .mk name pk r.cols, r.err⟩

/-- The `for name, value in table_def.columns.items()` loop of
`construct_table`, iterating the dictionary after `del` of the
`skip` key: nested definitions are built recursively and then
`construct_foreign_key(table, value.name, table_metadata)` runs against
the parent's current registry entry `tname`; plain values go through
`construct_column` and are appended to the parent.  An exception stops
the loop, keeping all mutations performed so far. -/
def build_loop (tname : String) (skip : Option String) (cols : Columns)
    (md : MetaData) : LoopResult :=
  match cols with
  | .nil => ⟨md, .nil, none⟩
  | .cons k v rest =>
    if skip == some k then
      build_loop tname skip rest md
    else
      match v with
      | .table child =>
        let r := construct_table child md
        match r.err with
        | some e => ⟨r.md, .cons k (.table r.td) (rest.eraseKey skip), some e⟩
        | none =>
          match r.md.lookup tname with
          | none => ⟨r.md, .cons k (.table r.td) (rest.eraseKey skip), some (.keyError tname)⟩
          | some parent =>
            match construct_foreign_key parent r.td.name r.md with
            | .error e => ⟨r.md, .cons k (.table r.td) (rest.eraseKey skip), some e⟩
            | .ok md2 =>
              let r2 := build_loop tname skip rest md2
              ⟨r2.md, .cons k (.table r.td) r2.cols, r2.err⟩
      | .spec ty =>
        match construct_column k ty with
        | .error e => ⟨md, .cons k (.spec ty) (rest.eraseKey skip), some e⟩
        | .ok c =>
          let md2 := md.append_column tname c
          let r2 := build_loop tname skip rest md2
          ⟨r2.md, .cons k (.spec ty) r2.cols, r2.err⟩
end

/-- The result of `yaml.load` on the input document: the module's
comment assumes a list of table definitions at the root, but a single
`!Table`-tagged mapping yields one `TableDefinition` (as in the
module's own demo document). -/
inductive YamlDoc where
  | table (td : TableDefinition)
  | list (tds : List TableDefinition)

/-- `generate_metadata(file_object)`: parse, create a fresh `MetaData`,
call `construct_table` on the parsed root, and return the metadata.
When the root parses to a Python list, `construct_table` immediately
evaluates `table_def.name`, raising `AttributeError` since lists have
no `name` attribute; on any exception the local metadata never reaches
the caller. -/
def generate_metadata (file_object : YamlDoc) : Except PyErr MetaData :=
  match file_object with
  | .list _ => .error (.attributeError ("'list' object has no attribute 'name'"))
  | .table table_def =>
    let r := construct_table table_def ⟨[]⟩
    match r.err with
    | some e => .error e
    | none => .ok r.md

/-! Helper lemmas about the registry operations. -/

/-- The table object under key `n` after `append_column` on key `n`. -/
def extendTable (T : SATable) (c : SAColumn) : SATable := ⟨T.name, T.columns ++ [c]⟩

theorem names_register (md : MetaData) (t : SATable) :
    (md.register t).names = md.names ++ [t.name] := by
  simp [MetaData.register, MetaData.names]

theorem contains_eq_mem (l : List String) (a : String) :
    l.contains a = true ↔ a ∈ l := List.elem_iff

theorem lookup_cons (p : String × SATable) (ts : List (String × SATable)) (n : String) :
    MetaData.lookup ⟨p :: ts⟩ n
      = if p.1 == n then some p.2 else MetaData.lookup ⟨ts⟩ n := by
  cases h : p.1 == n <;> simp [MetaData.lookup, List.find?_cons, h]

theorem append_column_cons (p : String × SATable) (ts : List (String × SATable))
    (n : String) (c : SAColumn) :
    MetaData.append_column ⟨p :: ts⟩ n c
      = ⟨(if p.1 == n then (p.1, extendTable p.2 c) else p)
          :: (MetaData.append_column ⟨ts⟩ n c).tables⟩ := by
  by_cases h : p.1 = n <;> simp [MetaData.append_column, extendTable, beq_iff_eq, h]

theorem names_append_column (md : MetaData) (n : String) (c : SAColumn) :
    (md.append_column n c).names = md.names := by
  obtain ⟨ts⟩ := md
  induction ts with
  | nil => rfl
  | cons p ts ih =>
    rw [append_column_cons]
    by_cases h : p.1 == n
    · simpa [MetaData.names, h] using ih
    · simpa [MetaData.names, h] using ih

theorem lookup_eq_none (md : MetaData) (n : String)
    (h : md.names.contains n = false) : md.lookup n = none := by
  obtain ⟨ts⟩ := md
  induction ts with
  | nil => rfl
  | cons p ts ih =>
    have h1 : (n == p.1) = false ∧ (List.map (fun q => q.1) ts).contains n = false := by
      simpa [MetaData.names, List.contains_cons, Bool.or_eq_false_iff] using h
    have hne : (p.1 == n) = false := by
      cases hb : p.1 == n
      · rfl
      · rw [beq_iff_eq.mp hb] at h1
        simpa using h1.1
    rw [lookup_cons, if_neg (by simp [hne])]
    exact ih (by simpa [MetaData.names] using h1.2)

theorem lookup_register_of_some (md : MetaData) (t : SATable) (n : String) (T : SATable)
    (h : md.lookup n = some T) : (md.register t).lookup n = some T := by
  obtain ⟨ts⟩ := md
  simp only [MetaData.lookup, MetaData.register, List.find?_append] at *
  cases hf : List.find? (fun p => p.1 == n) ts with
  | none => simp [hf] at h
  | some p =>
    simp only [hf, Option.map_some] at h
    simp [hf, h]

theorem lookup_register_self (md : MetaData) (t : SATable)
    (h : md.names.contains t.name = false) : (md.register t).lookup t.name = some t := by
  have h0 := lookup_eq_none md t.name h
  obtain ⟨ts⟩ := md
  simp only [MetaData.lookup, MetaData.register, List.find?_append] at *
  cases hf : List.find? (fun p => p.1 == t.name) ts with
  | none => simp
  | some p => simp [hf] at h0

theorem lookup_append_column (md : MetaData) (n : String) (c : SAColumn) (k : String) :
    (md.append_column n c).lookup k
      = (md.lookup k).map (fun T => if k == n then extendTable T c else T) := by
  obtain ⟨ts⟩ := md
  induction ts with
  | nil => rfl
  | cons p ts ih =>
    rw [append_column_cons]
    by_cases h1 : p.1 == k
    · have hk : p.1 = k := beq_iff_eq.mp h1
      by_cases h2 : p.1 == n
      · have hn : p.1 = n := beq_iff_eq.mp h2
        rw [lookup_cons]
        simp [h2, lookup_cons, h1, ← hk, hn]
      · rw [lookup_cons]
        simp only [h2, if_neg, Bool.false_eq_true, not_false_iff]
        have hkn : (k == n) = false := by
          cases hb : k == n
          · rfl
          · rw [hk] at h2; simp [beq_iff_eq.mp hb] at h2
        simp [lookup_cons, h1, hkn]
    · by_cases h2 : p.1 == n
      · rw [lookup_cons]
        simp only [h2, if_pos]
        have : ((p.1, extendTable p.2 c).1 == k) = false := by simpa using h1
        simp only [this, Bool.false_eq_true, if_neg, not_false_iff, lookup_cons, h1]
        exact ih
      · rw [lookup_cons]
        simp only [h2, if_neg, Bool.false_eq_true, not_false_iff]
        rw [lookup_cons, if_neg (by simpa using h1), if_neg (by simpa using h1)]
        exact ih

/-- A registry entry is filed under the table's name, the table has at
least one column (the primary key, added at creation), and no column
after the first is flagged as a primary key. -/
def HeadPkOk (T : SATable) : Prop :=
  ∃ c cs, T.columns = c :: cs ∧ ∀ x ∈ cs, x.primary_key = false

def MetaData.WellFormed (md : MetaData) : Prop :=
  ∀ p ∈ md.tables, p.2.name = p.1 ∧ HeadPkOk p.2

/-- What one `construct_table` / loop step guarantees about the registry:
names are preserved (the registry only grows), every registered table
keeps its name and its column list as a prefix (columns are only
appended), distinctness of names is preserved, and well-formedness is
preserved. -/
def Preserve (m m' : MetaData) : Prop :=
  m.names ⊆ m'.names ∧
  (∀ n T, m.lookup n = some T →
    ∃ T', m'.lookup n = some T' ∧ T'.name = T.name ∧ T.columns <+: T'.columns) ∧
  (m.names.Nodup → m'.names.Nodup) ∧
  (m.WellFormed → m'.WellFormed)

theorem preserve_refl (m : MetaData) : Preserve m m := by
  refine ⟨fun _ h => h, fun n T h => ⟨T, h, rfl, ⟨[], by simp⟩⟩, id, id⟩

theorem preserve_trans {m1 m2 m3 : MetaData} (h1 : Preserve m1 m2) (h2 : Preserve m2 m3) :
    Preserve m1 m3 := by
  obtain ⟨s1, l1, d1, w1⟩ := h1
  obtain ⟨s2, l2, d2, w2⟩ := h2
  refine ⟨fun n h => s2 (s1 h), ?_, fun h => d2 (d1 h), fun h => w2 (w1 h)⟩
  intro n T h
  obtain ⟨T', hT', hn', hp'⟩ := l1 n T h
  obtain ⟨T'', hT'', hn'', hp''⟩ := l2 n T' hT'
  exact ⟨T'', hT'', hn''.trans hn', hp'.trans hp''⟩

theorem preserve_register (md : MetaData) (t : SATable)
    (hfresh : md.names.contains t.name = false) (hwf : HeadPkOk t) :
    Preserve md (md.register t) := by
  refine ⟨?_, ?_, ?_, ?_⟩
  · rw [names_register]; exact fun n h => List.mem_append_left _ h
  · intro n T h
    exact ⟨T, lookup_register_of_some md t n T h, rfl, ⟨[], by simp⟩⟩
  · intro h
    rw [names_register]
    have hnm : t.name ∉ md.names := by
      intro hm
      rw [(contains_eq_mem _ _).mpr hm] at hfresh
      simp at hfresh
    simp [List.nodup_append, h, hnm]
  · intro h p hp
    simp only [MetaData.register, List.mem_append, List.mem_singleton] at hp
    rcases hp with hp | hp
    · exact h p hp
    · subst hp; exact ⟨rfl, hwf⟩

theorem preserve_append_column (md : MetaData) (n : String) (c : SAColumn)
    (hc : c.primary_key = false) : Preserve md (md.append_column n c) := by
  refine ⟨?_, ?_, ?_, ?_⟩
  · rw [names_append_column]; exact fun _ h => h
  · intro k T h
    rw [lookup_append_column, h]
    by_cases hk : k == n
    · exact ⟨extendTable T c, by simp [hk], rfl, ⟨[c], rfl⟩⟩
    · exact ⟨T, by simp [hk], rfl, ⟨[], by simp⟩⟩
  · rw [names_append_column]; exact id
  · intro h p hp
    obtain ⟨ts⟩ := md
    simp only [MetaData.append_column, List.mem_map] at hp
    obtain ⟨q, hq, hpq⟩ := hp
    obtain ⟨hname, c0, cs, hcols, htail⟩ :
        q.2.name = q.1 ∧ ∃ c0 cs, q.2.columns = c0 :: cs ∧ ∀ x ∈ cs, x.primary_key = false := by
      have := h q hq; exact ⟨this.1, this.2⟩
    by_cases hm : q.1 == n
    · subst hpq
      refine ⟨by simp [hm, hname], ?_⟩
      exact ⟨c0, cs ++ [c], by simp [hm, hcols], by
        intro x hx
        rcases List.mem_append.mp hx with hx | hx
        · exact htail x hx
        · simpa [List.mem_singleton.mp hx] using hc⟩
    · subst hpq
      exact ⟨by simp [hm, hname], ⟨c0, cs, by simp [hm, hcols], htail⟩⟩

theorem construct_column_pk_false {k ty : String} {c : SAColumn}
    (h : construct_column k ty = .ok c) : c.primary_key = false := by
  unfold construct_column at h
  by_cases hc : sqlalchemy_types.contains ty
  · rw [if_pos hc] at h
    simp only [Except.ok.injEq] at h
    rw [← h]
  · rw [if_neg hc] at h
    exact absurd h (by simp)

theorem construct_foreign_key_ok {one_table : SATable} {many_name : String}
    {md md' : MetaData} (h : construct_foreign_key one_table many_name md = .ok md') :
    ∃ fk, fk.primary_key = false ∧ md' = md.append_column many_name fk := by
  unfold construct_foreign_key at h
  cases h1 : (one_table.columns.filter (fun c => c.primary_key)).head? with
  | none => rw [h1] at h; simp at h
  | some fpk =>
    rw [h1] at h
    simp only at h
    cases h2 : md.lookup many_name with
    | none => rw [h2] at h; simp at h
    | some T =>
      rw [h2] at h
      simp only at h
      cases h3 : one_table.columns.find? (fun c => c.name == fpk.name) with
      | none => rw [h3] at h; simp at h
      | some target =>
        rw [h3] at h
        simp only [Except.ok.injEq] at h
        exact ⟨_, rfl, h.symm⟩

theorem preserve_foreign_key {one_table : SATable} {many_name : String}
    {md md' : MetaData} (h : construct_foreign_key one_table many_name md = .ok md') :
    Preserve md md' := by
  obtain ⟨fk, hfk, rfl⟩ := construct_foreign_key_ok h
  exact preserve_append_column md many_name fk hfk

mutual
/-- Registry monotonicity and invariant preservation of one
`construct_table` call, whether it returns normally or raises. -/
theorem construct_table_mono (td : TableDefinition) (md : MetaData) :
    Preserve md (construct_table td md).md := by
  cases td with
  | mk name pk cols =>
    rw [construct_table.eq_def]
    by_cases h : md.names.contains name
    · simp only [h, if_pos]
      exact preserve_refl md
    · have hf : md.names.contains name = false := by simpa using h
      simp only [hf, Bool.false_eq_true, if_neg, not_false_iff]
      cases pk with
      | none =>
        simp only
        exact preserve_trans
          (preserve_register md ⟨name, [⟨"id", some "Integer", true, none⟩]⟩ hf
            ⟨_, [], rfl, by simp⟩)
          (build_loop_mono name none cols
            (md.register ⟨name, [⟨"id", some "Integer", true, none⟩]⟩))
      | some pkName =>
        simp only
        cases hl : cols.lookup pkName with
        | none =>
          simp only [hl]
          exact preserve_refl md
        | some v =>
          simp only [hl]
          cases hc : construct_column_value pkName v with
          | error e =>
            simp only [hc]
            exact preserve_refl md
          | ok pkCol =>
            simp only [hc]
            exact preserve_trans
              (preserve_register md ⟨name, [pkCol]⟩ hf ⟨pkCol, [], rfl, by simp⟩)
              (build_loop_mono name (some pkName) cols (md.register ⟨name, [pkCol]⟩))

/-- Registry monotonicity and invariant preservation of the column
loop, whether it completes or stops at an exception. -/
theorem build_loop_mono (tname : String) (skip : Option String) (cols : Columns)
    (md : MetaData) : Preserve md (build_loop tname skip cols md).md := by
  cases cols with
  | nil => exact preserve_refl md
  | cons k v rest =>
    rw [build_loop.eq_def]
    by_cases hs : skip == some k
    · simp only [hs, if_pos]
      exact build_loop_mono tname skip rest md
    · have hsf : (skip == some k) = false := by simpa using hs
      simp only [hsf, Bool.false_eq_true, if_neg, not_false_iff]
      cases v with
      | table child =>
        simp only
        have hchild := construct_table_mono child md
        cases he : (construct_table child md).err with
        | some e =>
          simp only [he]
          exact hchild
        | none =>
          simp only [he]
          cases hp : (construct_table child md).md.lookup tname with
          | none =>
            simp only [hp]
            exact hchild
          | some parent =>
            simp only [hp]
            cases hfk : construct_foreign_key parent (construct_table child md).td.name
                (construct_table child md).md with
            | error e =>
              simp only [hfk]
              exact hchild
            | ok md2 =>
              simp only [hfk]
              exact preserve_trans hchild
                (preserve_trans (preserve_foreign_key hfk)
                  (build_loop_mono tname skip rest md2))
      | spec ty =>
        simp only
        cases hc : construct_column k ty with
        | error e =>
          simp only [hc]
          exact preserve_refl md
        | ok c =>
          simp only [hc]
          exact preserve_trans
            (preserve_append_column md tname c (construct_column_pk_false hc))
            (build_loop_mono tname skip rest (md.append_column tname c))
end

/-! Characterization of the loop on runs of plain (non-nested) column
entries whose types resolve. -/

/-- The column produced by `construct_column` on a known type name. -/
def plain_col (k ty : String) : SAColumn := ⟨k, some ty, false, none⟩

/-- The default primary key `Column('id', Integer, primary_key=True)`. -/
def default_pk_col : SAColumn := ⟨"id", some "Integer", true, none⟩

/-- Repeated `append_column` on the same table. -/
def MetaData.append_columns (md : MetaData) (n : String) (cs : List SAColumn) : MetaData :=
  cs.foldl (fun m c => m.append_column n c) md

/-- A run of plain column entries prepended to a columns dictionary. -/
def appendPlain : List (String × String) → Columns → Columns
  | [], cs => cs
  | (k, ty) :: rest, cs => .cons k (.spec ty) (appendPlain rest cs)

theorem names_append_columns (md : MetaData) (n : String) (cs : List SAColumn) :
    (md.append_columns n cs).names = md.names := by
  induction cs generalizing md with
  | nil => rfl
  | cons c cs ih =>
    show ((md.append_column n c).append_columns n cs).names = md.names
    rw [ih, names_append_column]

theorem lookup_append_columns (md : MetaData) (n : String) (cs : List SAColumn) :
    (md.append_columns n cs).lookup n
      = (md.lookup n).map (fun T => ⟨T.name, T.columns ++ cs⟩) := by
  induction cs generalizing md with
  | nil =>
    cases h : md.lookup n
    · simp [MetaData.append_columns, h]
    · simp [MetaData.append_columns, h]
  | cons c cs ih =>
    show ((md.append_column n c).append_columns n cs).lookup n = _
    rw [ih, lookup_append_column]
    cases h : md.lookup n with
    | none => simp
    | some T => simp [extendTable]

theorem beq_self_option (k : String) : (some k == some k) = true := by simp

theorem build_loop_skip_head (tname k : String) (v : ColumnValue) (rest : Columns)
    (md : MetaData) :
    build_loop tname (some k) (.cons k v rest) md = build_loop tname (some k) rest md := by
  rw [build_loop.eq_def]
  simp

/-- Rebuilding of a loop result after a processed prefix. -/
def mapCols (f : Columns → Columns) (r : LoopResult) : LoopResult := ⟨r.md, f r.cols, r.err⟩

theorem build_loop_plain (l : List (String × String)) (tname : String) (skip : Option String)
    (cs : Columns) (md : MetaData)
    (hall : ∀ p ∈ l, sqlalchemy_types.contains p.2 = true)
    (hskip : ∀ p ∈ l, skip ≠ some p.1) :
    build_loop tname skip (appendPlain l cs) md
      = mapCols (appendPlain l)
          (build_loop tname skip cs
            (md.append_columns tname (l.map (fun p => plain_col p.1 p.2)))) := by
  induction l generalizing md with
  | nil =>
    simp only [appendPlain, List.map_nil]
    cases h : build_loop tname skip cs md
    simp [mapCols, MetaData.append_columns, h]
  | cons p l ih =>
    obtain ⟨k, ty⟩ := p
    have hsk : (skip == some k) = false := by
      cases hb : skip == some k
      · rfl
      · exact absurd (beq_iff_eq.mp hb) (hskip (k, ty) (by simp))
    have hty : sqlalchemy_types.contains ty = true := hall (k, ty) (by simp)
    rw [appendPlain, build_loop.eq_def]
    simp only [hsk, Bool.false_eq_true, if_neg, not_false_iff]
    have hcc : construct_column k ty = .ok (plain_col k ty) := by
      unfold construct_column
      rw [if_pos hty]
      rfl
    simp only [hcc]
    rw [ih _ (fun q hq => hall q (by simp [hq])) (fun q hq => hskip q (by simp [hq]))]
    simp only [mapCols, appendPlain]
    rfl

theorem build_loop_plain_nil (l : List (String × String)) (tname : String)
    (skip : Option String) (md : MetaData)
    (hall : ∀ p ∈ l, sqlalchemy_types.contains p.2 = true)
    (hskip : ∀ p ∈ l, skip ≠ some p.1) :
    build_loop tname skip (appendPlain l .nil) md
      = ⟨md.append_columns tname (l.map (fun p => plain_col p.1 p.2)), appendPlain l .nil, none⟩ := by
  rw [build_loop_plain l tname skip .nil md hall hskip]
  rfl

theorem eraseKey_none (cols : Columns) : cols.eraseKey none = cols := by
  cases cols with
  | nil => rfl
  | cons k v rest => simp [Columns.eraseKey, eraseKey_none rest]

theorem eraseKey_keys (skip : Option String) (cols : Columns) :
    (cols.eraseKey skip).keys = cols.keys.filter (fun x => !(skip == some x)) := by
  cases cols with
  | nil => rfl
  | cons k v rest =>
    by_cases h : skip == some k
    · simp [Columns.eraseKey, Columns.keys, h, eraseKey_keys skip rest]
    · have hf : (skip == some k) = false := by simpa using h
      simp [Columns.eraseKey, Columns.keys, hf, eraseKey_keys skip rest]

/-- The keys of the definition's columns after the loop: exactly the
original keys minus the deleted primary-key entry, in order,
independent of registry state and of where (or whether) the loop
stopped on an exception. -/
theorem build_loop_keys (tname : String) (skip : Option String) (cols : Columns)
    (md : MetaData) :
    (build_loop tname skip cols md).cols.keys
      = cols.keys.filter (fun x => !(skip == some x)) := by
  cases cols with
  | nil => rfl
  | cons k v rest =>
    rw [build_loop.eq_def]
    by_cases hs : skip == some k
    · simp only [hs, if_pos]
      rw [build_loop_keys tname skip rest md]
      simp [Columns.keys, hs]
    · have hsf : (skip == some k) = false := by simpa using hs
      simp only [hsf, Bool.false_eq_true, if_neg, not_false_iff]
      cases v with
      | table child =>
        simp only
        cases he : (construct_table child md).err with
        | some e => simp [Columns.keys, hsf, eraseKey_keys]
        | none =>
          simp only [he]
          cases hp : (construct_table child md).md.lookup tname with
          | none => simp [Columns.keys, hsf, eraseKey_keys]
          | some parent =>
            simp only [hp]
            cases hfk : construct_foreign_key parent (construct_table child md).td.name
                (construct_table child md).md with
            | error e => simp [Columns.keys, hsf, eraseKey_keys]
            | ok md2 =>
              simp only [hfk]
              rw [Columns.keys]
              rw [build_loop_keys tname skip rest md2]
              simp [Columns.keys, hsf]
      | spec ty =>
        simp only
        cases hc : construct_column k ty with
        | error e => simp [Columns.keys, hsf, eraseKey_keys]
        | ok c =>
          simp only [hc]
          rw [Columns.keys]
          rw [build_loop_keys tname skip rest (md.append_column tname c)]
          simp [Columns.keys, hsf]

mutual
/-- Relation between a column value and its state after a build pass:
plain values are untouched, nested definitions are related by
`PkErasedTree`. -/
inductive PkErasedVal : ColumnValue → ColumnValue → Prop
  | spec (ty : String) : PkErasedVal (.spec ty) (.spec ty)
  | table {c c' : TableDefinition} : PkErasedTree c c' → PkErasedVal (.table c) (.table c')

/-- Relation between a columns dictionary and its state after a build
pass with deleted key `skip`: keys and their order are preserved except
that entries keyed by the deleted primary-key name are removed. -/
inductive PkErasedCols : Option String → Columns → Columns → Prop
  | nil (skip : Option String) : PkErasedCols skip .nil .nil
  | drop {skip : Option String} {k : String} {v : ColumnValue} {rest rest' : Columns} :
      skip = some k → PkErasedCols skip rest rest' →
      PkErasedCols skip (.cons k v rest) rest'
  | keep {skip : Option String} {k : String} {v v' : ColumnValue} {rest rest' : Columns} :
      skip ≠ some k → PkErasedVal v v' → PkErasedCols skip rest rest' →
      PkErasedCols skip (.cons k v rest) (.cons k v' rest')

/-- Relation between a definition node and its state after a build
pass: either untouched (node skipped, or failure before the deletion),
or same name and same `primary_key` attribute with the columns related
by `PkErasedCols` for the respective deleted key. -/
inductive PkErasedTree : TableDefinition → TableDefinition → Prop
  | same (td : TableDefinition) : PkErasedTree td td
  | erased {name : String} {pk : String} {cols cols' : Columns} :
      PkErasedCols (some pk) cols cols' →
      PkErasedTree (.mk name (some pk) cols) (.mk name (some pk) cols')
  | walked {name : String} {cols cols' : Columns} :
      PkErasedCols none cols cols' →
      PkErasedTree (.mk name none cols) (.mk name none cols')
end

theorem pkErasedVal_refl (v : ColumnValue) : PkErasedVal v v := by
  cases v with
  | spec ty => exact .spec ty
  | table c => exact .table (.same c)

theorem pkErasedCols_eraseKey (skip : Option String) (cols : Columns) :
    PkErasedCols skip cols (cols.eraseKey skip) := by
  cases cols with
  | nil => exact .nil skip
  | cons k v rest =>
    by_cases h : skip == some k
    · rw [Columns.eraseKey, if_pos h]
      exact .drop (beq_iff_eq.mp h) (pkErasedCols_eraseKey skip rest)
    · rw [Columns.eraseKey, if_neg h]
      exact .keep (by simpa using h) (pkErasedVal_refl v) (pkErasedCols_eraseKey skip rest)

mutual
/-- The only mutation `construct_table` performs on the definition tree
is the deletion of designated primary-key entries. -/
theorem construct_table_pk_erased (td : TableDefinition) (md : MetaData) :
    PkErasedTree td (construct_table td md).td := by
  cases td with
  | mk name pk cols =>
    rw [construct_table.eq_def]
    by_cases h : md.names.contains name
    · simp only [h, if_pos]
      exact .same _
    · have hf : md.names.contains name = false := by simpa using h
      simp only [hf, Bool.false_eq_true, if_neg, not_false_iff]
      cases pk with
      | none =>
        simp only
        exact .walked (build_loop_pk_erased name none cols _)
      | some pkName =>
        simp only
        cases hl : cols.lookup pkName with
        | none =>
          simp only [hl]
          exact .same _
        | some v =>
          simp only [hl]
          cases hc : construct_column_value pkName v with
          | error e =>
            simp only [hc]
            exact .same _
          | ok pkCol =>
            simp only [hc]
            exact .erased (build_loop_pk_erased name (some pkName) cols _)

theorem build_loop_pk_erased (tname : String) (skip : Option String) (cols : Columns)
    (md : MetaData) : PkErasedCols skip cols (build_loop tname skip cols md).cols := by
  cases cols with
  | nil => exact .nil skip
  | cons k v rest =>
    rw [build_loop.eq_def]
    by_cases hs : skip == some k
    · simp only [hs, if_pos]
      exact .drop (beq_iff_eq.mp hs) (build_loop_pk_erased tname skip rest md)
    · have hsf : (skip == some k) = false := by simpa using hs
      have hne : skip ≠ some k := by simpa using hs
      simp only [hsf, Bool.false_eq_true, if_neg, not_false_iff]
      cases v with
      | table child =>
        simp only
        cases he : (construct_table child md).err with
        | some e =>
          simp only [he]
          exact .keep hne (.table (construct_table_pk_erased child md))
            (pkErasedCols_eraseKey skip rest)
        | none =>
          simp only [he]
          cases hp : (construct_table child md).md.lookup tname with
          | none =>
            simp only [hp]
            exact .keep hne (.table (construct_table_pk_erased child md))
              (pkErasedCols_eraseKey skip rest)
          | some parent =>
            simp only [hp]
            cases hfk : construct_foreign_key parent (construct_table child md).td.name
                (construct_table child md).md with
            | error e =>
              simp only [hfk]
              exact .keep hne (.table (construct_table_pk_erased child md))
                (pkErasedCols_eraseKey skip rest)
            | ok md2 =>
              simp only [hfk]
              exact .keep hne (.table (construct_table_pk_erased child md))
                (build_loop_pk_erased tname skip rest md2)
      | spec ty =>
        simp only
        cases hc : construct_column k ty with
        | error e =>
          simp only [hc]
          exact .keep hne (pkErasedVal_refl (.spec ty)) (pkErasedCols_eraseKey skip rest)
        | ok c =>
          simp only [hc]
          exact .keep hne (pkErasedVal_refl (.spec ty))
            (build_loop_pk_erased tname skip rest (md.append_column tname c))
end

theorem pkErasedTree_name {a b : TableDefinition} (h : PkErasedTree a b) :
    b.name = a.name := by
  cases h <;> rfl

theorem construct_table_td_name (td : TableDefinition) (md : MetaData) :
    (construct_table td md).td.name = td.name :=
  pkErasedTree_name (construct_table_pk_erased td md)

mutual
/-- A definition tree with no explicit `primary_key` designation
anywhere. -/
def TableDefinition.noPk : TableDefinition → Bool
  | .mk _ (some _) _ => false
  | .mk _ none cols => cols.noPk

def Columns.noPk : Columns → Bool
  | .nil => true
  | .cons _ (.spec _) rest => rest.noPk
  | .cons _ (.table c) rest => c.noPk && rest.noPk
end

mutual
/-- A definition tree that designates no primary key anywhere is
returned by `construct_table` entirely unchanged. -/
theorem construct_table_noPk (td : TableDefinition) (md : MetaData)
    (h : td.noPk = true) : (construct_table td md).td = td := by
  cases td with
  | mk name pk cols =>
    cases pk with
    | some pkName => simp [TableDefinition.noPk] at h
    | none =>
      rw [construct_table.eq_def]
      by_cases hc : md.names.contains name
      · simp only [hc, if_pos]
      · have hf : md.names.contains name = false := by simpa using hc
        simp only [hf, Bool.false_eq_true, if_neg, not_false_iff]
        have hcols : cols.noPk = true := by simpa [TableDefinition.noPk] using h
        rw [build_loop_noPk name cols _ hcols]

theorem build_loop_noPk (tname : String) (cols : Columns) (md : MetaData)
    (h : cols.noPk = true) : (build_loop tname none cols md).cols = cols := by
  cases cols with
  | nil => rfl
  | cons k v rest =>
    rw [build_loop.eq_def]
    have hsf : ((none : Option String) == some k) = false := rfl
    simp only [hsf, Bool.false_eq_true, if_neg, not_false_iff]
    cases v with
    | table child =>
      have hparts : child.noPk = true ∧ rest.noPk = true := by
        simpa [Columns.noPk, Bool.and_eq_true] using h
      have hchild : (construct_table child md).td = child :=
        construct_table_noPk child md hparts.1
      simp only
      cases he : (construct_table child md).err with
      | some e => simp [hchild, eraseKey_none]
      | none =>
        simp only [he]
        cases hp : (construct_table child md).md.lookup tname with
        | none => simp [hchild, eraseKey_none]
        | some parent =>
          simp only [hp]
          cases hfk : construct_foreign_key parent (construct_table child md).td.name
              (construct_table child md).md with
          | error e => simp [hchild, eraseKey_none]
          | ok md2 =>
            simp only [hfk]
            rw [build_loop_noPk tname rest md2 hparts.2, hchild]
    | spec ty =>
      have hrest : rest.noPk = true := by simpa [Columns.noPk] using h
      simp only
      cases hcc : construct_column k ty with
      | error e => simp [eraseKey_none]
      | ok c =>
        simp only [hcc]
        rw [build_loop_noPk tname rest (md.append_column tname c) hrest]
end

theorem construct_table_skip (td : TableDefinition) (md : MetaData)
    (h : md.names.contains td.name = true) : construct_table td md = ⟨md, td, none⟩ := by
  cases td with
  | mk name pk cols =>
    rw [construct_table.eq_def]
    simp only [TableDefinition.name] at h
    simp only [h, if_pos]

theorem construct_table_success_contains (td : TableDefinition) (md : MetaData)
    (h : (construct_table td md).err = none) :
    (construct_table td md).md.names.contains td.name = true := by
  cases td with
  | mk name pk cols =>
    rw [construct_table.eq_def] at h ⊢
    by_cases hc : md.names.contains name
    · simp only [hc, if_pos]
      simpa [TableDefinition.name] using hc
    · have hf : md.names.contains name = false := by simpa using hc
      simp only [hf, Bool.false_eq_true, if_neg, not_false_iff] at h ⊢
      cases pk with
      | none =>
        simp only at h ⊢
        apply (contains_eq_mem _ _).mpr
        apply (build_loop_mono name none cols _).1
        rw [names_register]
        simp [TableDefinition.name]
      | some pkName =>
        simp only at h ⊢
        cases hl : cols.lookup pkName with
        | none =>
          rw [hl] at h
          simp at h
        | some v =>
          rw [hl] at h
          simp only at h ⊢
          cases hcc : construct_column_value pkName v with
          | error e =>
            rw [hcc] at h
            simp at h
          | ok pkCol =>
            rw [hcc] at h
            simp only at h ⊢
            apply (contains_eq_mem _ _).mpr
            apply (build_loop_mono name (some pkName) cols _).1
            rw [names_register]
            simp [TableDefinition.name]

theorem not_contains_true {l : List String} {a : String} (h : l.contains a = false) :
    ¬(l.contains a = true) := by
  rw [h]
  simp

theorem prefix_mem {l1 l2 : List SAColumn} {a : SAColumn} (h : l1 <+: l2) (ha : a ∈ l1) :
    a ∈ l2 := by
  obtain ⟨t, rfl⟩ := h
  exact List.mem_append_left _ ha

theorem lookup_appendPlain_ne (l : List (String × String)) (k : String) (cs : Columns)
    (hne : ∀ p ∈ l, p.1 ≠ k) :
    (appendPlain l cs).lookup k = cs.lookup k := by
  induction l with
  | nil => rfl
  | cons p l ih =>
    obtain ⟨k1, ty⟩ := p
    have hb : (k1 == k) = false := by
      cases hb : k1 == k
      · rfl
      · exact absurd (beq_iff_eq.mp hb) (hne (k1, ty) (by simp))
    rw [appendPlain]
    simp only [Columns.lookup, hb, Bool.false_eq_true, if_neg, not_false_iff]
    exact ih (fun q hq => hne q (by simp [hq]))

/-- A successful fresh build of a table definition whose columns are a
run of plain entries with known types and no explicit primary key:
the default `id` primary key occupies position 0 and the declared
columns follow in declaration order. -/
theorem construct_table_default_plain (t : String) (l : List (String × String))
    (md : MetaData) (hf : md.names.contains t = false)
    (hall : ∀ p ∈ l, sqlalchemy_types.contains p.2 = true) :
    (construct_table (.mk t none (appendPlain l .nil)) md).err = none ∧
    (construct_table (.mk t none (appendPlain l .nil)) md).md.lookup t
      = some ⟨t, default_pk_col :: l.map (fun p => plain_col p.1 p.2)⟩ := by
  rw [construct_table.eq_def]
  simp only [hf, Bool.false_eq_true, if_neg, not_false_iff]
  rw [build_loop_plain_nil l t none _ hall (fun p _ => by simp)]
  refine ⟨rfl, ?_⟩
  simp only
  rw [lookup_append_columns]
  have hreg := lookup_register_self md ⟨t, [⟨"id", some "Integer", true, none⟩]⟩ hf
  rw [hreg]
  rfl

/-- A successful fresh build of a table definition whose columns are a
run of plain entries with known types and whose explicit primary key is
declared at an arbitrary position: the designated column occupies
position 0 and the remaining declared columns follow in declaration
order. -/
theorem construct_table_explicit_plain (t k ty : String) (l1 l2 : List (String × String))
    (md : MetaData) (hf : md.names.contains t = false)
    (hty : sqlalchemy_types.contains ty = true)
    (hall1 : ∀ p ∈ l1, sqlalchemy_types.contains p.2 = true)
    (hall2 : ∀ p ∈ l2, sqlalchemy_types.contains p.2 = true)
    (hk1 : ∀ p ∈ l1, p.1 ≠ k) (hk2 : ∀ p ∈ l2, p.1 ≠ k) :
    (construct_table (.mk t (some k) (appendPlain l1 (.cons k (.spec ty) (appendPlain l2 .nil)))) md).err
      = none ∧
    (construct_table (.mk t (some k) (appendPlain l1 (.cons k (.spec ty) (appendPlain l2 .nil)))) md).md.lookup t
      = some ⟨t, plain_col k ty :: (l1 ++ l2).map (fun p => plain_col p.1 p.2)⟩ := by
  have hlook : (appendPlain l1 (.cons k (.spec ty) (appendPlain l2 .nil))).lookup k
      = some (.spec ty) := by
    rw [lookup_appendPlain_ne l1 k _ hk1]
    simp [Columns.lookup]
  have hcc : construct_column_value k (.spec ty) = .ok (plain_col k ty) := by
    simp only [construct_column_value]
    unfold construct_column
    rw [if_pos hty]
    rfl
  rw [construct_table.eq_def]
  simp only [hf, Bool.false_eq_true, if_neg, not_false_iff, hlook, hcc]
  have hskip1 : ∀ p ∈ l1, (some k : Option String) ≠ some p.1 := by
    intro p hp
    simpa [eq_comm] using hk1 p hp
  have hskip2 : ∀ p ∈ l2, (some k : Option String) ≠ some p.1 := by
    intro p hp
    simpa [eq_comm] using hk2 p hp
  rw [build_loop_plain l1 t (some k) _ _ hall1 hskip1]
  rw [build_loop_skip_head]
  rw [build_loop_plain_nil l2 t (some k) _ hall2 hskip2]
  refine ⟨rfl, ?_⟩
  simp only [mapCols]
  rw [show MetaData.append_columns ((MetaData.register md ⟨t, [plain_col k ty]⟩).append_columns t
        (l1.map (fun p => plain_col p.1 p.2))) t (l2.map (fun p => plain_col p.1 p.2))
      = (MetaData.register md ⟨t, [plain_col k ty]⟩).append_columns t
        (l1.map (fun p => plain_col p.1 p.2) ++ l2.map (fun p => plain_col p.1 p.2)) from by
    simp [MetaData.append_columns, List.foldl_append]]
  rw [lookup_append_columns]
  rw [show (MetaData.register md ⟨t, [plain_col k ty]⟩).lookup t
        = some ⟨t, [plain_col k ty]⟩ from lookup_register_self md ⟨t, [plain_col k ty]⟩ hf]
  simp

/-- The definition tree of the module-level demo document:
`people{firstName: String, lastName: String, inventory: items{description: String}}`. -/
def demo_def : TableDefinition :=
  .mk "people" none
    (.cons "firstName" (.spec "String")
      (.cons "lastName" (.spec "String")
        (.cons "inventory"
          (.table (.mk "items" none (.cons "description" (.spec "String") .nil)))
          .nil)))

/-- The module-level `metadata = generate_metadata("...")` value. -/
def metadata : Except PyErr MetaData := generate_metadata (.table demo_def)

/-! The claims. -/

/-- Claim C1 (code bug): building
`people{firstName: String, lastName: String, inventory: items{description: String}}`
into a fresh registry yields exactly the tables `people` and `items`,
`people = [id (integer primary key), firstName, lastName]` and
`items = [id (integer primary key), description, fk]` with the
foreign-key column referencing `people.id` — all as the claim states —
but the foreign-key column is literally named `"people_people.id"`,
not `"people_id"`: the code formats the primary-key `Column` object,
which renders table-qualified, instead of its name. -/
theorem C1_end_to_end_eval :
    (construct_table demo_def ⟨[]⟩).err = none ∧
    (construct_table demo_def ⟨[]⟩).md.names = ["people", "items"] ∧
    (construct_table demo_def ⟨[]⟩).md.lookup "people"
      = some ⟨"people", [⟨"id", some "Integer", true, none⟩,
          ⟨"firstName", some "String", false, none⟩,
          ⟨"lastName", some "String", false, none⟩]⟩ ∧
    (construct_table demo_def ⟨[]⟩).md.lookup "items"
      = some ⟨"items", [⟨"id", some "Integer", true, none⟩,
          ⟨"description", some "String", false, none⟩,
          ⟨"people_people.id", none, false, some ("people", "id")⟩]⟩ ∧
    ((construct_table demo_def ⟨[]⟩).md.lookup "items").map
        (fun T => T.columns.map (fun c => c.name))
      ≠ some ["id", "description", "people_id"] := by
  refine ⟨rfl, rfl, rfl, rfl, ?_⟩
  decide

def c2_def : TableDefinition :=
  .mk "people" none
    (.cons "inventory"
      (.table (.mk "items" none (.cons "description" (.spec "String") .nil))) .nil)

/-- Claim C2 (code bug): after building parent `people` (default
primary key `id`) with nested child `items`, the column appended to the
child does reference the parent's primary key `people.id`, but its name
is `"people_people.id"` — `'%s_%s' % (one_table.name, first_primary_key)`
formats the primary-key `Column` object, rendered table-qualified —
not `"people_id"` as the claim and the code's own comment
(`'table_primaryId'`) state. -/
theorem C2_foreign_key_name_eval :
    ((construct_table c2_def ⟨[]⟩).md.lookup "items").map
        (fun T => T.columns.map (fun c => c.name))
      = some ["id", "description", "people_people.id"] ∧
    ((construct_table c2_def ⟨[]⟩).md.lookup "items").map
        (fun T => T.columns.map (fun c => c.foreign_key))
      = some [none, none, some ("people", "id")] ∧
    "people_people.id" ≠ "people_id" := by
  refine ⟨rfl, rfl, ?_⟩
  decide

def c3_def : TableDefinition :=
  .mk "people" none (.cons "firstName" (.spec "Bogus") .nil)

/-- Claim C3 counterexample: a column of unknown type `"Bogus"` fails
the build with the unknown-type `KeyError` naming both the type and the
column, but the `people` table IS left registered (with only its
primary key) in the caller-provided registry, contradicting the claim's
"no table is left partially registered in the caller-visible
registry". -/
theorem C3_partial_registration_counterexample :
    (construct_table c3_def ⟨[]⟩).err
      = some (.keyError "Unknown type \"Bogus\" in column \"firstName\"") ∧
    (construct_table c3_def ⟨[]⟩).md.names = ["people"] ∧
    (construct_table c3_def ⟨[]⟩).md.lookup "people"
      = some ⟨"people", [⟨"id", some "Integer", true, none⟩]⟩ :=
  ⟨rfl, rfl, rfl⟩

/-- Claim C3 (amended): every `construct_column` call on a type name
outside the supported catalog fails with a `KeyError` whose message
carries both the offending type name and the column name; and for
every definition whose table name is not already registered, which
designates no explicit primary key, and whose entries before the
offending column are plain columns with known types, the build fails
with exactly that error for the first unknown-typed column — but the
definition's own table remains registered in the caller-provided
registry, because registration precedes column construction.
(Definitions outside these restrictions can fail differently — an
explicit-primary-key parent with a nested child raises `StopIteration`
first — or not at all: an already-registered name returns without
error.) -/
theorem C3_unknown_type_amended :
    (∀ name ty, sqlalchemy_types.contains ty = false →
      construct_column name ty = .error (.keyError (unknown_type_msg ty name))) ∧
    (∀ (t : String) (l : List (String × String)) (k ty : String) (post : Columns)
        (md : MetaData),
      md.names.contains t = false →
      (∀ p ∈ l, sqlalchemy_types.contains p.2 = true) →
      sqlalchemy_types.contains ty = false →
      (construct_table (.mk t none (appendPlain l (.cons k (.spec ty) post))) md).err
          = some (.keyError (unknown_type_msg ty k)) ∧
        (construct_table (.mk t none (appendPlain l (.cons k (.spec ty) post))) md).md.names.contains t
          = true) := by
  constructor
  · intro name ty h
    unfold construct_column
    rw [if_neg (not_contains_true h)]
  · intro t l k ty post md hf hall hty
    rw [construct_table.eq_def]
    simp only [hf, Bool.false_eq_true, if_neg, not_false_iff]
    rw [build_loop_plain l t none _ _ hall (fun p _ => by simp)]
    rw [build_loop.eq_def]
    have hsk : ((none : Option String) == some k) = false := rfl
    simp only [hsk, Bool.false_eq_true, if_neg, not_false_iff]
    have hcc : construct_column k ty = .error (.keyError (unknown_type_msg ty k)) := by
      unfold construct_column
      rw [if_neg (not_contains_true hty)]
    simp only [hcc, mapCols]
    refine ⟨by simp, ?_⟩
    apply (contains_eq_mem _ _).mpr
    rw [names_append_columns, names_register]
    simp

/-- Witness for the amended C3 at concrete inputs. -/
theorem C3_unknown_type_amended_witness :
    construct_column "firstName" "Bogus"
        = .error (.keyError (unknown_type_msg "Bogus" "firstName")) ∧
    (construct_table (.mk "p" none (appendPlain [] (.cons "c" (.spec "Bogus") .nil))) ⟨[]⟩).err
        = some (.keyError (unknown_type_msg "Bogus" "c")) ∧
    (construct_table (.mk "p" none (appendPlain [] (.cons "c" (.spec "Bogus") .nil))) ⟨[]⟩).md.names.contains "p"
        = true :=
  ⟨C3_unknown_type_amended.1 "firstName" "Bogus" (by decide),
   (C3_unknown_type_amended.2 "p" [] "c" "Bogus" .nil ⟨[]⟩ rfl (by simp) (by decide)).1,
   (C3_unknown_type_amended.2 "p" [] "c" "Bogus" .nil ⟨[]⟩ rfl (by simp) (by decide)).2⟩

def c4_def : TableDefinition :=
  .mk "users" (some "uid") (.cons "uid" (.spec "Integer") .nil)

/-- Claim C4 (code bug): a definition designating the explicit primary
key `uid` builds without error, but the designated column is created by
`construct_column` as a plain `Column(name, type())` without
`primary_key=True`, so the constructed table has zero columns marked as
primary key — not exactly one, as the claim states. (Consequently
`construct_foreign_key` on such a parent raises `StopIteration`.) -/
theorem C4_explicit_pk_unmarked_eval :
    (construct_table c4_def ⟨[]⟩).err = none ∧
    (construct_table c4_def ⟨[]⟩).md.lookup "users"
      = some ⟨"users", [⟨"uid", some "Integer", false, none⟩]⟩ ∧
    ((construct_table c4_def ⟨[]⟩).md.lookup "users").map
        (fun T => (T.columns.filter (fun c => c.primary_key)).length) = some 0 :=
  ⟨rfl, rfl, rfl⟩

def c5_roots : List TableDefinition :=
  [.mk "a" none (.cons "x" (.spec "String") .nil),
   .mk "b" none (.cons "y" (.spec "Integer") .nil)]

/-- Claim C5 (code bug): `generate_metadata`'s comment assumes the root
element is a list of table definitions, but the code passes the parsed
root directly to `construct_table`; on a list root the attribute access
`table_def.name` raises `AttributeError` and nothing is built, so the
entry point is not usable on a forest. A single tagged root, as in the
module's own demo, does work. -/
theorem C5_forest_eval :
    generate_metadata (.list c5_roots)
      = .error (.attributeError "'list' object has no attribute 'name'") ∧
    generate_metadata (.table (.mk "a" none (.cons "x" (.spec "String") .nil)))
      = .ok ⟨[("a", ⟨"a", [⟨"id", some "Integer", true, none⟩,
          ⟨"x", some "String", false, none⟩]⟩)]⟩ :=
  ⟨rfl, rfl⟩

/-- Claim C6 (confirmed): whenever the registry already contains the
root's name, `construct_table` returns immediately with registry and
definition untouched and no error; consequently, re-running
`construct_table` on the (possibly mutated) root and registry produced
by a successful first run is a no-op with no error and no new
tables. -/
theorem C6_idempotent :
    (∀ (td : TableDefinition) (md : MetaData), md.names.contains td.name = true →
      construct_table td md = ⟨md, td, none⟩) ∧
    (∀ (td : TableDefinition) (md : MetaData), (construct_table td md).err = none →
      construct_table (construct_table td md).td (construct_table td md).md
        = ⟨(construct_table td md).md, (construct_table td md).td, none⟩) := by
  constructor
  · exact construct_table_skip
  · intro td md h
    apply construct_table_skip
    rw [construct_table_td_name]
    exact construct_table_success_contains td md h

def c6_def : TableDefinition := .mk "a6" none (.cons "x" (.spec "String") .nil)

/-- Witness for C6 at a concrete input. -/
theorem C6_idempotent_witness :
    construct_table (construct_table c6_def ⟨[]⟩).td (construct_table c6_def ⟨[]⟩).md
      = ⟨(construct_table c6_def ⟨[]⟩).md, (construct_table c6_def ⟨[]⟩).td, none⟩ :=
  C6_idempotent.2 c6_def ⟨[]⟩ rfl

def c7_bad_def : TableDefinition :=
  .mk "t" (some "k")
    (.cons "k" (.spec "Integer") (.cons "self" (.table (.mk "t" none .nil)) .nil))

/-- Claim C7 counterexample: a self-referential definition with an
explicit primary key terminates with `StopIteration` (the explicit
primary-key column is not flagged, so the parent's primary-key
constraint is empty) and the single registered table bears no
foreign-key column, contradicting the claim for this self-referential
definition. -/
theorem C7_explicit_pk_self_cycle_counterexample :
    (construct_table c7_bad_def ⟨[]⟩).err = some .stopIteration ∧
    (construct_table c7_bad_def ⟨[]⟩).md.names = ["t"] ∧
    ((construct_table c7_bad_def ⟨[]⟩).md.lookup "t").map
        (fun T => T.columns.map (fun c => c.foreign_key)) = some [none] :=
  ⟨rfl, rfl, rfl⟩

/-- Claim C7 (amended): for every self-referential definition without
an explicit primary-key entry whose entries before the self-reference
are plain columns with known types, a fresh build terminates with
exactly one table of that name in the registry, bearing a foreign-key
column that references its own (default `id`) primary key — whatever
the remaining entries are. -/
theorem C7_self_cycle_amended (t : String) (l : List (String × String)) (k : String)
    (child : TableDefinition) (post : Columns)
    (hall : ∀ p ∈ l, sqlalchemy_types.contains p.2 = true)
    (hname : child.name = t) :
    (construct_table (.mk t none (appendPlain l (.cons k (.table child) post))) ⟨[]⟩).md.names.count t
      = 1 ∧
    ∃ T, (construct_table (.mk t none (appendPlain l (.cons k (.table child) post))) ⟨[]⟩).md.lookup t
        = some T ∧
      ∃ c ∈ T.columns, c.foreign_key = some (t, "id") := by
  rw [construct_table.eq_def]
  have hf : (MetaData.names ⟨[]⟩).contains t = false := rfl
  simp only [hf, Bool.false_eq_true, if_neg, not_false_iff]
  rw [build_loop_plain l t none _ _ hall (fun p _ => by simp)]
  rw [build_loop.eq_def]
  have hsk : ((none : Option String) == some k) = false := rfl
  simp only [hsk, Bool.false_eq_true, if_neg, not_false_iff]
  set md2 := ((⟨[]⟩ : MetaData).register
      ⟨t, [⟨"id", some "Integer", true, none⟩]⟩).append_columns t
      (l.map (fun p => plain_col p.1 p.2)) with hmd2
  have hnames2 : md2.names = [t] := by
    rw [hmd2, names_append_columns, names_register]
    rfl
  have hcont : md2.names.contains child.name = true := by
    rw [hnames2, hname]
    simp
  have hskip : construct_table child md2 = ⟨md2, child, none⟩ :=
    construct_table_skip child md2 hcont
  simp only [hskip]
  have hlook : md2.lookup t
      = some ⟨t, ⟨"id", some "Integer", true, none⟩ :: l.map (fun p => plain_col p.1 p.2)⟩ := by
    rw [hmd2, lookup_append_columns]
    have hreg := lookup_register_self ⟨[]⟩ ⟨t, [⟨"id", some "Integer", true, none⟩]⟩ rfl
    rw [hreg]
    rfl
  simp only [hlook, hname]
  have hfk : construct_foreign_key
      ⟨t, ⟨"id", some "Integer", true, none⟩ :: l.map (fun p => plain_col p.1 p.2)⟩ t md2
      = .ok (md2.append_column t
          ⟨t ++ "_" ++ column_str t "id", none, false, some (t, "id")⟩) := by
    unfold construct_foreign_key
    rw [List.filter_cons_of_pos (by rfl)]
    simp only [List.head?_cons]
    rw [hlook]
    simp only
    rw [List.find?_cons_of_pos _ (by simp)]
  rw [hfk]
  simp only [mapCols]
  have hlook3 : (md2.append_column t
        ⟨t ++ "_" ++ column_str t "id", none, false, some (t, "id")⟩).lookup t
      = some ⟨t, (⟨"id", some "Integer", true, none⟩ :: l.map (fun p => plain_col p.1 p.2))
          ++ [⟨t ++ "_" ++ column_str t "id", none, false, some (t, "id")⟩]⟩ := by
    rw [lookup_append_column, hlook]
    simp [extendTable]
  have hmono := build_loop_mono t none post
      (md2.append_column t ⟨t ++ "_" ++ column_str t "id", none, false, some (t, "id")⟩)
  constructor
  · apply List.count_eq_one_of_mem
    · apply hmono.2.2.1
      rw [names_append_column, hnames2]
      simp
    · apply hmono.1
      rw [names_append_column, hnames2]
      simp
  · obtain ⟨T', hT', _, hpre⟩ := hmono.2.1 t _ hlook3
    refine ⟨T', hT', ⟨t ++ "_" ++ column_str t "id", none, false, some (t, "id")⟩, ?_, rfl⟩
    apply prefix_mem hpre
    simp

/-- Witness for the amended C7 at a concrete input. -/
theorem C7_self_cycle_amended_witness :
    (construct_table (.mk "t" none (appendPlain []
        (.cons "self" (.table (.mk "t" none .nil)) .nil))) ⟨[]⟩).md.names.count "t" = 1 ∧
    ∃ T, (construct_table (.mk "t" none (appendPlain []
        (.cons "self" (.table (.mk "t" none .nil)) .nil))) ⟨[]⟩).md.lookup "t" = some T ∧
      ∃ c ∈ T.columns, c.foreign_key = some ("t", "id") :=
  C7_self_cycle_amended "t" [] "self" (.mk "t" none .nil) .nil (by simp) rfl

/-- Claim C8 (confirmed): every table ever present in a registry built
from scratch has a nonempty column sequence whose position-0 column is
the one it was registered with (its primary key) and no later column is
flagged as a primary key; for a fresh table whose declared columns are
plain with known types, the constructed column sequence is exactly the
default `id` primary key followed by the declared columns in
declaration order, and with an explicit primary key declared at any
position it is exactly the designated column followed by the remaining
declared columns in declaration order. -/
theorem C8_primary_key_first :
    (∀ td : TableDefinition, (construct_table td ⟨[]⟩).md.WellFormed) ∧
    (∀ (t : String) (l : List (String × String)) (md : MetaData),
      md.names.contains t = false →
      (∀ p ∈ l, sqlalchemy_types.contains p.2 = true) →
      (construct_table (.mk t none (appendPlain l .nil)) md).err = none ∧
      (construct_table (.mk t none (appendPlain l .nil)) md).md.lookup t
        = some ⟨t, default_pk_col :: l.map (fun p => plain_col p.1 p.2)⟩) ∧
    (∀ (t k ty : String) (l1 l2 : List (String × String)) (md : MetaData),
      md.names.contains t = false →
      sqlalchemy_types.contains ty = true →
      (∀ p ∈ l1, sqlalchemy_types.contains p.2 = true) →
      (∀ p ∈ l2, sqlalchemy_types.contains p.2 = true) →
      (∀ p ∈ l1, p.1 ≠ k) → (∀ p ∈ l2, p.1 ≠ k) →
      (construct_table (.mk t (some k)
          (appendPlain l1 (.cons k (.spec ty) (appendPlain l2 .nil)))) md).err = none ∧
      (construct_table (.mk t (some k)
          (appendPlain l1 (.cons k (.spec ty) (appendPlain l2 .nil)))) md).md.lookup t
        = some ⟨t, plain_col k ty :: (l1 ++ l2).map (fun p => plain_col p.1 p.2)⟩) := by
  refine ⟨?_, construct_table_default_plain, construct_table_explicit_plain⟩
  intro td
  exact (construct_table_mono td ⟨[]⟩).2.2.2 (fun p hp => absurd hp (List.not_mem_nil p))

/-- Witness for C8 at concrete inputs. -/
theorem C8_primary_key_first_witness :
    (construct_table (.mk "w8" none (appendPlain [("a", "String")] .nil)) ⟨[]⟩).md.WellFormed ∧
    ((construct_table (.mk "w8" none (appendPlain [("a", "String")] .nil)) ⟨[]⟩).err = none ∧
      (construct_table (.mk "w8" none (appendPlain [("a", "String")] .nil)) ⟨[]⟩).md.lookup "w8"
        = some ⟨"w8", default_pk_col :: [("a", "String")].map (fun p => plain_col p.1 p.2)⟩) ∧
    ((construct_table (.mk "z8" (some "kk")
        (appendPlain [("a", "String")] (.cons "kk" (.spec "Integer")
          (appendPlain [("b", "String")] .nil)))) ⟨[]⟩).err = none ∧
      (construct_table (.mk "z8" (some "kk")
        (appendPlain [("a", "String")] (.cons "kk" (.spec "Integer")
          (appendPlain [("b", "String")] .nil)))) ⟨[]⟩).md.lookup "z8"
        = some ⟨"z8", plain_col "kk" "Integer"
            :: ([("a", "String")] ++ [("b", "String")]).map (fun p => plain_col p.1 p.2)⟩) :=
  ⟨C8_primary_key_first.1 (.mk "w8" none (appendPlain [("a", "String")] .nil)),
   C8_primary_key_first.2.1 "w8" [("a", "String")] ⟨[]⟩ rfl (by decide),
   C8_primary_key_first.2.2 "z8" "kk" "Integer" [("a", "String")] [("b", "String")] ⟨[]⟩
     rfl (by decide) (by decide) (by decide) (by decide) (by decide)⟩

/-- Claim C9 (confirmed): `construct_table` mutates the definition tree
only by primary-key extraction — the output tree is related to the
input by deletions of designated primary-key entries alone, with every
node's name, `primary_key` attribute, remaining keys and their order
preserved; a tree designating no primary key anywhere is returned
unchanged; and on a fresh build whose designated entry resolves, the
root's columns lose exactly that entry. -/
theorem C9_frame :
    (∀ (td : TableDefinition) (md : MetaData),
      PkErasedTree td (construct_table td md).td) ∧
    (∀ (td : TableDefinition) (md : MetaData), td.noPk = true →
      (construct_table td md).td = td) ∧
    (∀ (t k : String) (cols : Columns) (md : MetaData) (v : ColumnValue) (c : SAColumn),
      md.names.contains t = false → cols.lookup k = some v →
      construct_column_value k v = .ok c →
      ∃ cols', (construct_table (.mk t (some k) cols) md).td = .mk t (some k) cols' ∧
        cols'.keys = cols.keys.filter (fun x => !(k == x))) := by
  refine ⟨construct_table_pk_erased, construct_table_noPk, ?_⟩
  intro t k cols md v c hf hl hcc
  rw [construct_table.eq_def]
  simp only [hf, Bool.false_eq_true, if_neg, not_false_iff, hl, hcc]
  refine ⟨_, rfl, ?_⟩
  rw [build_loop_keys]
  apply List.filter_congr
  intro x _
  rfl

def c9_def : TableDefinition :=
  .mk "u9" (some "k") (.cons "k" (.spec "Integer") (.cons "b" (.spec "String") .nil))

/-- Witness for C9 at concrete inputs. -/
theorem C9_frame_witness :
    PkErasedTree c9_def (construct_table c9_def ⟨[]⟩).td ∧
    (construct_table (.mk "n9" none .nil) ⟨[]⟩).td = .mk "n9" none .nil ∧
    ∃ cols', (construct_table c9_def ⟨[]⟩).td = .mk "u9" (some "k") cols' ∧
      cols'.keys = (Columns.cons "k" (.spec "Integer")
          (.cons "b" (.spec "String") .nil)).keys.filter (fun x => !("k" == x)) :=
  ⟨C9_frame.1 c9_def ⟨[]⟩,
   C9_frame.2.1 (.mk "n9" none .nil) ⟨[]⟩ rfl,
   C9_frame.2.2 "u9" "k" (.cons "k" (.spec "Integer") (.cons "b" (.spec "String") .nil))
     ⟨[]⟩ (.spec "Integer") (plain_col "k" "Integer") rfl rfl rfl⟩

/-- Claim C10 (confirmed): the registry only grows — after any
`construct_table` call, successful or failed, every name present
before is still present, and the table registered under it has kept its
name and all its previous columns in place (columns are only ever
appended); no entry is removed or replaced. -/
theorem C10_registry_monotone :
    ∀ (td : TableDefinition) (md : MetaData),
      md.names ⊆ (construct_table td md).md.names ∧
      ∀ n T, md.lookup n = some T →
        ∃ T', (construct_table td md).md.lookup n = some T' ∧ T'.name = T.name ∧
          T.columns <+: T'.columns :=
  fun td md => ⟨(construct_table_mono td md).1, (construct_table_mono td md).2.1⟩

/-- Witness for C10 at a concrete input. -/
theorem C10_registry_monotone_witness :
    (⟨[("x", ⟨"x", [default_pk_col]⟩)]⟩ : MetaData).names
        ⊆ (construct_table (.mk "y" none .nil) ⟨[("x", ⟨"x", [default_pk_col]⟩)]⟩).md.names ∧
    ∃ T', (construct_table (.mk "y" none .nil)
          ⟨[("x", ⟨"x", [default_pk_col]⟩)]⟩).md.lookup "x" = some T' ∧
        T'.name = (⟨"x", [default_pk_col]⟩ : SATable).name ∧
        (⟨"x", [default_pk_col]⟩ : SATable).columns <+: T'.columns :=
  ⟨(C10_registry_monotone (.mk "y" none .nil) ⟨[("x", ⟨"x", [default_pk_col]⟩)]⟩).1,
   (C10_registry_monotone (.mk "y" none .nil) ⟨[("x", ⟨"x", [default_pk_col]⟩)]⟩).2
     "x" ⟨"x", [default_pk_col]⟩ rfl⟩

end YamlMetadata
